import Mathlib

/-!
Verification of the kovri `ClientDestination` request/publish/dispatch state
machine (`src/client/destination.h`) against its natural-language
specification.

The repository ships the class declaration, its constants, and a few inline
member bodies (`IsReady`, trivial getters) in `destination.h`; the member
function bodies of `destination.cc` are not part of the source tree.  Where a
body is missing, the corresponding Lean definition is modelled from the
specification (its doc comment says so and names the missing member); the
constants, field layout and the `IsReady` body are embedded directly from the
header.

Time is modelled in seconds as `Nat`.  Identity hashes, ports, tokens and
callback handles are opaque `Nat`s.  The single-threaded event loop is
modelled by pure state-transition functions `State -> State x List Event`,
where `Event` records the externally observable actions (lookup queries sent,
completion callbacks invoked, database-store publishes sent, ...).
-/

namespace Kovri

/-- Identity hash of a destination or router (opaque). -/
abbrev IdentHash := Nat

/-- Handle standing for a registered completion callback (opaque). -/
abbrev Callback := Nat

/-- Constant from destination.h line 61: publish confirmation timeout, seconds. -/
def PUBLISH_CONFIRMATION_TIMEOUT : Nat := 5

/-- Constant from destination.h line 62: per-attempt lease-set request timeout, seconds. -/
def LEASESET_REQUEST_TIMEOUT : Nat := 5

/-- Constant from destination.h line 63: total lease-set request budget, seconds. -/
def MAX_LEASESET_REQUEST_TIMEOUT : Nat := 40

/-- Constant from destination.h line 64: maximum floodfills tried per request. -/
def MAX_NUM_FLOODFILLS_PER_REQUEST : Nat := 7

/-- Constant from destination.h line 65: cleanup sweep period, minutes. -/
def DESTINATION_CLEANUP_TIMEOUT : Nat := 20

/-- A lease: tunnel gateway and expiration date (spec section 3: LeaseSet is an
ordered set of (tunnel gateway, expiration) pairs). -/
structure Lease where
  tunnel_gateway : Nat
  end_date : Nat
  deriving DecidableEq, Repr

/-- A lease set: owner identity hash plus its leases (spec section 3). -/
structure LeaseSet where
  ident : IdentHash
  leases : List Lease
  deriving DecidableEq, Repr

/-- Modelled from the spec: body of `kovri::data::LeaseSet::HasNonExpiredLeases`
(core/lease_set.h, outside src/).  Spec section 3: "has non-expired leases" =
at least one lease's expiration is in the future relative to current time. -/
def LeaseSet.HasNonExpiredLeases (ls : LeaseSet) (now : Nat) : Bool :=
  ls.leases.any fun l => now < l.end_date

/-- The tunnel pool, reduced to the view `IsReady` consumes: its current
outbound tunnels (opaque handles). -/
structure TunnelPool where
  outbound_tunnels : List Nat
  deriving DecidableEq, Repr

/-- Embeds `TunnelPool::GetOutboundTunnels` as the field view. -/
def TunnelPool.GetOutboundTunnels (p : TunnelPool) : List Nat :=
  p.outbound_tunnels

/-- The `LeaseSetRequest` struct of destination.h lines 84-93: excluded
floodfill set, request start time, the armed timeout timer (modelled as an
optional deadline), and the completion callback (`RequestComplete`, which may
be the null `std::function`, modelled as `Option Callback`). -/
structure LeaseSetRequest where
  excluded : List IdentHash
  request_time : Nat
  timer_deadline : Option Nat
  request_complete : Option Callback
  deriving DecidableEq, Repr

/-- The `ClientDestination` state: the private fields of destination.h lines
245-276 that the specified state machine touches.  Maps are association
lists; deadline timers are `Option Nat` deadlines (`none` = not armed).
`m_LeaseSetDirty` is the dirty flag of spec section 3 (set by tunnel-pool
change, cleared when a publish attempt is issued); it has no named field in
the header (it lives behind `SetLeaseSetUpdated`), so it is modelled from the
spec.  Streaming destinations are opaque handles (`Nat`). -/
structure ClientDestination where
  m_IsRunning : Bool
  m_RemoteLeaseSets : List (IdentHash × LeaseSet)
  m_LeaseSetRequests : List (IdentHash × LeaseSetRequest)
  m_Pool : TunnelPool
  m_LeaseSet : Option LeaseSet
  m_PublishReplyToken : Nat
  m_ExcludedFloodfills : List IdentHash
  m_StreamingDestinationsByPorts : List (Nat × Nat)
  m_PublishConfirmationTimer : Option Nat
  m_CleanupTimer : Option Nat
  m_LeaseSetDirty : Bool
  deriving DecidableEq, Repr

/-- Embedded from the inline body in destination.h lines 119-123:
`return m_LeaseSet && m_LeaseSet->HasNonExpiredLeases() &&
m_Pool->GetOutboundTunnels().size() > 0;`.  A pure function of the current
fields and the current time: nothing is cached. -/
def ClientDestination.IsReady (d : ClientDestination) (now : Nat) : Bool :=
  match d.m_LeaseSet with
  | none => false
  | some ls => ls.HasNonExpiredLeases now && decide (0 < d.m_Pool.GetOutboundTunnels.length)

/-! ## Association-list helpers (the `std::map` fields) -/

/-- Remove every binding of key `k` (the `std::map::erase` of the request and
streaming-destination maps). -/
def alErase (k : Nat) (m : List (Nat × α)) : List (Nat × α) :=
  m.filter fun p => p.1 ≠ k

/-- Bind key `k` to `v`, replacing any previous binding (`std::map` insert or
assignment). -/
def alInsert (k : Nat) (v : α) (m : List (Nat × α)) : List (Nat × α) :=
  (k, v) :: alErase k m

/-- The keys of an association list are pairwise distinct (always true of a
`std::map`; our operations preserve it). -/
def KeysNodup (m : List (Nat × α)) : Prop :=
  (m.map Prod.fst).Nodup

/-! ## Observable events of the event loop -/

/-- Externally observable actions of the destination's event loop.  `t` is the
loop time (seconds) at which the action happens. -/
inductive Event where
  /-- A lease-set lookup query for `dest` sent to floodfill `peer`. -/
  | lookupSent (t : Nat) (dest : IdentHash) (peer : IdentHash)
  /-- A `RequestComplete` callback invoked with a found lease set or `none`
  (the absent / not-found sentinel). -/
  | callbackInvoked (t : Nat) (cb : Callback) (result : Option LeaseSet)
  /-- A database-store publish of the local lease set sent to floodfill
  `peer`, carrying the fresh confirmation token. -/
  | publishSent (t : Nat) (peer : IdentHash) (token : Nat)
  /-- A delivery-status message recognised as the outstanding publish
  confirmation. -/
  | publishConfirmed (token : Nat)
  /-- A delivery-status message not matching the outstanding publish token,
  forwarded to the streaming/datagram layer. -/
  | forwardedToStreaming (token : Nat)
  deriving DecidableEq, Repr

/-- The callback invocations recorded in an event list, as
(time, callback, result) triples. -/
def callbackEvents (evs : List Event) : List (Nat × Callback × Option LeaseSet) :=
  evs.filterMap fun e =>
    match e with
    | Event.callbackInvoked t cb r => some (t, cb, r)
    | _ => none

/-- The lookup queries recorded in an event list, as (time, dest, peer)
triples. -/
def lookupEvents (evs : List Event) : List (Nat × IdentHash × IdentHash) :=
  evs.filterMap fun e =>
    match e with
    | Event.lookupSent t dest peer => some (t, dest, peer)
    | _ => none

/-- The publish sends recorded in an event list, as (time, peer, token)
triples. -/
def publishEvents (evs : List Event) : List (Nat × IdentHash × Nat) :=
  evs.filterMap fun e =>
    match e with
    | Event.publishSent t peer token => some (t, peer, token)
    | _ => none

/-- The events of a list that are not callback invocations. -/
def nonCallbackEvents (evs : List Event) : List Event :=
  evs.filter fun e =>
    match e with
    | Event.callbackInvoked _ _ _ => false
    | _ => true

/-- Invoking a possibly-null `RequestComplete` (`std::function`) at time `t`:
the null sentinel (`none`) is never dereferenced and produces no event; a real
callback produces one invocation event. -/
def invoke (cb : Option Callback) (t : Nat) (result : Option LeaseSet) : List Event :=
  match cb with
  | none => []
  | some c => [Event.callbackInvoked t c result]

/-! ## The lease-set request state machine -/

/-- Modelled from the spec: `kovri::data::netdb.GetClosestFloodfill` (the
NetDb is outside src/), reduced to what the spec requires of it — "select a
lookup peer not in the excluded set (closest-by-metric to hash, excluding
self and previously-tried peers)" (spec section 4.1).  `netdb` is the
candidate floodfill list in closeness order; the selection returns the first
candidate not yet excluded. -/
def GetClosestFloodfill (netdb : List IdentHash) (excluded : List IdentHash) :
    Option IdentHash :=
  netdb.find? fun p => !(excluded.contains p)

/-- Modelled from the spec: body of `ClientDestination::SendLeaseSetRequest`
(destination.cc, absent from src/).  Sends the lookup query for `dest` to
`peer` over an outbound tunnel, records `peer` as tried (so the spec's "add
the last peer to excluded set" has already happened when the next peer is
picked, and the tried-peer count is the excluded set's size), and arms the
per-attempt timeout (`LEASESET_REQUEST_TIMEOUT`, spec: "initial 5s"). -/
def sendLeaseSetRequest (now : Nat) (dest : IdentHash) (peer : IdentHash)
    (req : LeaseSetRequest) : LeaseSetRequest × List Event :=
  ({ req with
      excluded := peer :: req.excluded,
      timer_deadline := some (now + LEASESET_REQUEST_TIMEOUT) },
   [Event.lookupSent now dest peer])

/-- Modelled from the spec: body of `ClientDestination::RequestLeaseSet`
(destination.cc, absent from src/).  Spec section 4.1: if a request for
`dest` is already in flight the call is a no-op against the network
(dedupe-by-hash, only the original callback ultimately fires); otherwise a
fresh `LeaseSetRequest` is created, a floodfill is selected, the query sent,
the timeout armed and the request registered.  If no floodfill is available
the request completes immediately with the absent value. -/
def ClientDestination.RequestLeaseSet (d : ClientDestination)
    (netdb : List IdentHash) (now : Nat) (dest : IdentHash)
    (request_complete : Option Callback) : ClientDestination × List Event :=
  match List.lookup dest d.m_LeaseSetRequests with
  | some _ => (d, [])
  | none =>
    match GetClosestFloodfill netdb [] with
    | none => (d, invoke request_complete now none)
    | some peer =>
      let req : LeaseSetRequest :=
        { excluded := [], request_time := now, timer_deadline := none,
          request_complete := request_complete }
      let sent := sendLeaseSetRequest now dest peer req
      ({ d with m_LeaseSetRequests := alInsert dest sent.1 d.m_LeaseSetRequests },
       sent.2)

/-- Modelled from the spec: body of `ClientDestination::RequestDestination`
(declared at destination.h lines 128-130, body absent from src/).  Spec
section 4.1: if the cache holds a lease set with a non-expired lease for
`dest`, the callback fires with that value and nothing else happens;
otherwise the request machinery runs. -/
def ClientDestination.RequestDestination (d : ClientDestination)
    (netdb : List IdentHash) (now : Nat) (dest : IdentHash)
    (request_complete : Option Callback) : ClientDestination × List Event :=
  match List.lookup dest d.m_RemoteLeaseSets with
  | some ls =>
    if ls.HasNonExpiredLeases now then
      (d, invoke request_complete now (some ls))
    else
      d.RequestLeaseSet netdb now dest request_complete
  | none => d.RequestLeaseSet netdb now dest request_complete

/-- Modelled from the spec: body of `ClientDestination::HandleRequestTimoutTimer`
(declared at destination.h lines 236-238, body absent from src/).  Spec
section 4.1, on timeout of the request for `dest` at loop time `now`: if the
elapsed time since request start is below `MAX_LEASESET_REQUEST_TIMEOUT` and
fewer than `MAX_NUM_FLOODFILLS_PER_REQUEST` peers have been tried, pick the
next peer (the last one is already excluded), resend and re-arm; otherwise
complete with the absent value and remove the request.  Exhausting the
candidate list also completes with absent. -/
def ClientDestination.HandleRequestTimoutTimer (d : ClientDestination)
    (netdb : List IdentHash) (now : Nat) (dest : IdentHash) :
    ClientDestination × List Event :=
  match List.lookup dest d.m_LeaseSetRequests with
  | none => (d, [])
  | some req =>
    if now < req.request_time + MAX_LEASESET_REQUEST_TIMEOUT ∧
        req.excluded.length < MAX_NUM_FLOODFILLS_PER_REQUEST then
      match GetClosestFloodfill netdb req.excluded with
      | some peer =>
        let sent := sendLeaseSetRequest now dest peer req
        ({ d with m_LeaseSetRequests := alInsert dest sent.1 d.m_LeaseSetRequests },
         sent.2)
      | none =>
        ({ d with m_LeaseSetRequests := alErase dest d.m_LeaseSetRequests },
         invoke req.request_complete now none)
    else
      ({ d with m_LeaseSetRequests := alErase dest d.m_LeaseSetRequests },
       invoke req.request_complete now none)

/-- Modelled from the spec: body of `ClientDestination::HandleDatabaseStoreMessage`
(declared at destination.h lines 216-218, body absent from src/).  Spec
section 4.3: extract identity hash and lease set, update the cache, and if a
matching request is pending, complete it (cancel its timer, invoke the
callback with the found value, remove the request). -/
def ClientDestination.HandleDatabaseStoreMessage (d : ClientDestination)
    (now : Nat) (ls : LeaseSet) : ClientDestination × List Event :=
  let cache := alInsert ls.ident ls d.m_RemoteLeaseSets
  match List.lookup ls.ident d.m_LeaseSetRequests with
  | none => ({ d with m_RemoteLeaseSets := cache }, [])
  | some req =>
    ({ d with
        m_RemoteLeaseSets := cache,
        m_LeaseSetRequests := alErase ls.ident d.m_LeaseSetRequests },
     invoke req.request_complete now (some ls))

/-! ## The publish state machine -/

/-- Modelled from the spec: body of `ClientDestination::Publish`
(declared at destination.h line 211, body absent from src/).  Spec section
4.2: generate a fresh nonzero confirmation token (passed in as `newToken`,
since token generation is random), send a database-store to a floodfill
outside the current excluded set, record that floodfill as tried, clear the
dirty flag (a publish attempt is issued), and arm the confirmation timer
(`PUBLISH_CONFIRMATION_TIMEOUT`).  With no candidate floodfill available
nothing is sent. -/
def ClientDestination.Publish (d : ClientDestination) (netdb : List IdentHash)
    (now : Nat) (newToken : Nat) : ClientDestination × List Event :=
  match GetClosestFloodfill netdb d.m_ExcludedFloodfills with
  | none => (d, [])
  | some peer =>
    ({ d with
        m_ExcludedFloodfills := peer :: d.m_ExcludedFloodfills,
        m_PublishReplyToken := newToken,
        m_PublishConfirmationTimer := some (now + PUBLISH_CONFIRMATION_TIMEOUT),
        m_LeaseSetDirty := false },
     [Event.publishSent now peer newToken])

/-- Modelled from the spec: body of
`ClientDestination::HandlePublishConfirmationTimer` (declared at
destination.h lines 213-214, body absent from src/).  Spec section 4.2, on
confirmation-timer expiry: if the publish is still unconfirmed (the reply
token is still outstanding, i.e. nonzero), republish to a different peer —
the previously targeted peer is already in the excluded set — and re-arm; the
excluded set persists.  If the publish was already confirmed the expiry does
nothing.  No retry counter exists, so no cap on retries. -/
def ClientDestination.HandlePublishConfirmationTimer (d : ClientDestination)
    (netdb : List IdentHash) (now : Nat) (newToken : Nat) :
    ClientDestination × List Event :=
  if d.m_PublishReplyToken ≠ 0 then
    d.Publish netdb now newToken
  else
    (d, [])

/-- Modelled from the spec: body of
`ClientDestination::HandleDeliveryStatusMessage` (declared at destination.h
lines 224-225, body absent from src/).  Spec sections 4.2 and 4.3: if the
message token equals the outstanding publish token (`m_PublishReplyToken`,
destination.h line 265), the publish is confirmed — the excluded-peer set is
cleared and the outstanding token reset to zero; any other token is forwarded
to the streaming/datagram layer and leaves the publish state untouched. -/
def ClientDestination.HandleDeliveryStatusMessage (d : ClientDestination)
    (token : Nat) : ClientDestination × List Event :=
  if token = d.m_PublishReplyToken then
    ({ d with m_ExcludedFloodfills := [], m_PublishReplyToken := 0 },
     [Event.publishConfirmed token])
  else
    (d, [Event.forwardedToStreaming token])

/-! ## Lifecycle, cleanup, stream multiplexing -/

/-- Modelled from the spec: body of `ClientDestination::Stop` (declared at
destination.h line 105, body absent from src/).  Spec section 5: cancel all
armed timers and discard every still-unresolved request and publish cycle
without invoking its completion callback (no events are emitted). -/
def ClientDestination.Stop (d : ClientDestination) : ClientDestination × List Event :=
  ({ d with
      m_IsRunning := false,
      m_LeaseSetRequests := [],
      m_PublishReplyToken := 0,
      m_ExcludedFloodfills := [],
      m_PublishConfirmationTimer := none,
      m_CleanupTimer := none },
   [])

/-- Modelled from the spec: body of `ClientDestination::Start` (declared at
destination.h line 103, body absent from src/).  Spec sections 5 and 7: a
second `Start` on a running destination is a safe no-op; starting a stopped
destination yields state equivalent to first construction — empty
pending-request set, empty remote lease-set cache, dirty flag clear — and
arms the periodic cleanup timer. -/
def ClientDestination.Start (d : ClientDestination) (now : Nat) :
    ClientDestination × List Event :=
  if d.m_IsRunning then
    (d, [])
  else
    ({ d with
        m_IsRunning := true,
        m_RemoteLeaseSets := [],
        m_LeaseSetRequests := [],
        m_LeaseSetDirty := false,
        m_CleanupTimer := some (now + DESTINATION_CLEANUP_TIMEOUT * 60) },
     [])

/-- Modelled from the spec: body of `ClientDestination::CleanupRemoteLeaseSets`
(declared at destination.h line 243, body absent from src/).  Spec section
4.6: remove from the remote lease-set cache exactly the entries whose lease
set has no non-expired lease; nothing else is touched. -/
def ClientDestination.CleanupRemoteLeaseSets (d : ClientDestination) (now : Nat) :
    ClientDestination :=
  { d with
      m_RemoteLeaseSets :=
        d.m_RemoteLeaseSets.filter fun p => p.2.HasNonExpiredLeases now }

/-- Modelled from the spec: body of `ClientDestination::HandleCleanupTimer`
(declared at destination.h lines 240-241, body absent from src/).  Runs the
cleanup sweep and re-arms the cleanup timer `DESTINATION_CLEANUP_TIMEOUT`
minutes ahead. -/
def ClientDestination.HandleCleanupTimer (d : ClientDestination) (now : Nat) :
    ClientDestination × List Event :=
  let d1 := d.CleanupRemoteLeaseSets now
  ({ d1 with m_CleanupTimer := some (now + DESTINATION_CLEANUP_TIMEOUT * 60) }, [])

/-- Modelled from the spec: body of
`ClientDestination::CreateStreamingDestination` (declared at destination.h
lines 133-134, body absent from src/).  Spec section 4.5, `GetOrCreate(port)`:
return the existing per-port endpoint for `port` when one is registered in
`m_StreamingDestinationsByPorts` (destination.h lines 270-271), otherwise
create a new endpoint (`fresh`, an opaque handle, since construction is
opaque), register it under `port` and return it. -/
def ClientDestination.CreateStreamingDestination (d : ClientDestination)
    (port : Nat) (fresh : Nat) : ClientDestination × Nat :=
  match List.lookup port d.m_StreamingDestinationsByPorts with
  | some s => (d, s)
  | none =>
    ({ d with
        m_StreamingDestinationsByPorts :=
          alInsert port fresh d.m_StreamingDestinationsByPorts },
     fresh)

/-! ## Bounded runs of the event loop

The single-threaded loop (spec section 5) processes timer expiries at their
armed deadlines.  `fireTimeouts` runs the lookup-peer-never-responds scenario
for one hash: while a request for `dest` is registered with an armed timeout,
the timeout handler runs at that deadline; `fuel` bounds the number of loop
iterations.  `firePublishRetries` does the same for the publish confirmation
timer, consuming one fresh random token per expiry. -/

/-- Fire the armed request-timeout timer for `dest` at its deadline,
repeatedly, up to `fuel` times (the remote lookup peers never respond). -/
def fireTimeouts (netdb : List IdentHash) (dest : IdentHash) :
    Nat → ClientDestination → ClientDestination × List Event
  | 0, d => (d, [])
  | fuel + 1, d =>
    match List.lookup dest d.m_LeaseSetRequests with
    | none => (d, [])
    | some req =>
      match req.timer_deadline with
      | none => (d, [])
      | some t =>
        let step := d.HandleRequestTimoutTimer netdb t dest
        let rest := fireTimeouts netdb dest fuel step.1
        (rest.1, step.2 ++ rest.2)

/-- Fire the armed publish-confirmation timer at its deadline, once per token
in `tokens` (no delivery-status confirmation ever arrives). -/
def firePublishRetries (netdb : List IdentHash) :
    List Nat → ClientDestination → ClientDestination × List Event
  | [], d => (d, [])
  | tk :: rest, d =>
    match d.m_PublishConfirmationTimer with
    | none => (d, [])
    | some t =>
      let step := d.HandlePublishConfirmationTimer netdb t tk
      let more := firePublishRetries netdb rest step.1
      (more.1, step.2 ++ more.2)

/-- Forget the stored completion callback of a request (used to compare the
null-callback run of the state machine with the with-callback run: the two
runs must agree on everything but the stored callbacks themselves). -/
def scrubReq (r : LeaseSetRequest) : LeaseSetRequest :=
  { r with request_complete := none }

/-- Forget every stored completion callback of a destination's pending
requests. -/
def scrubCallbacks (d : ClientDestination) : ClientDestination :=
  { d with
      m_LeaseSetRequests :=
        d.m_LeaseSetRequests.map fun p => (p.1, scrubReq p.2) }

/-! ## Concrete sample states (used by the witness theorems) -/

/-- A lease set for identity 10 with one lease expiring at time 100. -/
def lsA : LeaseSet :=
  { ident := 10, leases := [{ tunnel_gateway := 1, end_date := 100 }] }

/-- A lease set for identity 11 whose only lease expired at time 1. -/
def lsOld : LeaseSet :=
  { ident := 11, leases := [{ tunnel_gateway := 2, end_date := 1 }] }

/-- A freshly started destination: empty cache and request table, one
outbound tunnel, a live local lease set, nothing outstanding. -/
def dEmpty : ClientDestination :=
  { m_IsRunning := true,
    m_RemoteLeaseSets := [],
    m_LeaseSetRequests := [],
    m_Pool := { outbound_tunnels := [0] },
    m_LeaseSet := some lsA,
    m_PublishReplyToken := 0,
    m_ExcludedFloodfills := [],
    m_StreamingDestinationsByPorts := [],
    m_PublishConfirmationTimer := none,
    m_CleanupTimer := none,
    m_LeaseSetDirty := false }

/-- A pending request for hash 42: started at time 0, one peer tried,
timeout armed at time 5, callback handle 9. -/
def reqA : LeaseSetRequest :=
  { excluded := [1], request_time := 0, timer_deadline := some 5,
    request_complete := some 9 }

/-- A destination with publish cycle outstanding: token 77, floodfill 3
already tried, confirmation timer armed at time 5. -/
def dPub : ClientDestination :=
  { dEmpty with
      m_PublishReplyToken := 77,
      m_ExcludedFloodfills := [3],
      m_PublishConfirmationTimer := some 5 }

/-! ## Association-list lemmas -/

theorem lookup_cons (k a : Nat) (b : α) (t : List (Nat × α)) :
    List.lookup k ((a, b) :: t) = if k = a then some b else List.lookup k t := by
  by_cases h : k = a
  · simp [List.lookup, h]
  · have hb : (k == a) = false := by simpa using h
    simp [List.lookup, h, hb]

theorem lookup_alErase_self (k : Nat) (m : List (Nat × α)) :
    List.lookup k (alErase k m) = none := by
  induction m with
  | nil => rfl
  | cons p t ih =>
      rcases p with ⟨a, b⟩
      by_cases h : a = k
      · simpa [alErase, h] using ih
      · rw [show alErase k ((a, b) :: t) = (a, b) :: alErase k t by simp [alErase, h]]
        rw [lookup_cons, if_neg fun hh => h hh.symm]
        exact ih

theorem lookup_alErase_ne (k k' : Nat) (m : List (Nat × α)) (h : k' ≠ k) :
    List.lookup k' (alErase k m) = List.lookup k' m := by
  induction m with
  | nil => rfl
  | cons p t ih =>
      rcases p with ⟨a, b⟩
      by_cases ha : a = k
      · have hk : k' ≠ a := fun hh => h (hh.trans ha)
        rw [show alErase k ((a, b) :: t) = alErase k t by simp [alErase, ha]]
        rw [ih, lookup_cons, if_neg hk]
      · rw [show alErase k ((a, b) :: t) = (a, b) :: alErase k t by simp [alErase, ha]]
        rw [lookup_cons, lookup_cons]
        by_cases hk : k' = a
        · simp [hk]
        · simp [hk, ih]

theorem lookup_alInsert_self (k : Nat) (v : α) (m : List (Nat × α)) :
    List.lookup k (alInsert k v m) = some v := by
  rw [alInsert, lookup_cons, if_pos rfl]

theorem lookup_alInsert_ne (k k' : Nat) (v : α) (m : List (Nat × α)) (h : k' ≠ k) :
    List.lookup k' (alInsert k v m) = List.lookup k' m := by
  rw [alInsert, lookup_cons, if_neg h]
  exact lookup_alErase_ne k k' m h

theorem keysNodup_alErase (k : Nat) (m : List (Nat × α)) (h : KeysNodup m) :
    KeysNodup (alErase k m) := by
  unfold KeysNodup alErase at *
  exact List.Nodup.sublist (List.Sublist.map _ (List.filter_sublist m)) h

theorem not_mem_keys_alErase (k : Nat) (m : List (Nat × α)) :
    k ∉ (alErase k m).map Prod.fst := by
  intro hmem
  rcases List.mem_map.mp hmem with ⟨p, hp, hpk⟩
  have := List.of_mem_filter hp
  simp [hpk] at this

theorem keysNodup_alInsert (k : Nat) (v : α) (m : List (Nat × α)) (h : KeysNodup m) :
    KeysNodup (alInsert k v m) := by
  unfold KeysNodup alInsert
  refine List.nodup_cons.mpr ⟨?_, keysNodup_alErase k m h⟩
  exact not_mem_keys_alErase k m

theorem lookup_eq_none_of_not_mem_keys (k : Nat) (m : List (Nat × α))
    (h : k ∉ m.map Prod.fst) : List.lookup k m = none := by
  induction m with
  | nil => rfl
  | cons p t ih =>
      rcases p with ⟨a, b⟩
      rw [List.map_cons, List.mem_cons] at h
      push_neg at h
      rw [lookup_cons, if_neg h.1]
      exact ih h.2

theorem lookup_filter_of_keysNodup (q : α → Bool) (k : Nat) (m : List (Nat × α))
    (h : KeysNodup m) (v : α) :
    List.lookup k (m.filter fun p => q p.2) = some v ↔
      List.lookup k m = some v ∧ q v = true := by
  induction m with
  | nil => simp
  | cons p t ih =>
      rcases p with ⟨a, b⟩
      have hnd : KeysNodup t := by
        unfold KeysNodup at h ⊢
        exact (List.nodup_cons.mp h).2
      have hnotmem : a ∉ t.map Prod.fst := by
        unfold KeysNodup at h
        exact (List.nodup_cons.mp h).1
      by_cases hk : k = a
      · subst hk
        by_cases hq : q b = true
        · rw [List.filter_cons_of_pos (by simpa using hq), lookup_cons, if_pos rfl,
            lookup_cons, if_pos rfl]
          constructor
          · intro h'
            rw [Option.some_inj] at h'
            exact ⟨by rw [h'], by rw [← h']; exact hq⟩
          · intro h'
            rw [Option.some_inj] at h'
            rw [h'.1]
        · rw [List.filter_cons_of_neg (by simpa using hq), lookup_cons, if_pos rfl]
          have hsub : (t.filter fun p => q p.2).map Prod.fst ⊆ t.map Prod.fst :=
            (List.Sublist.map _ (List.filter_sublist t)).subset
          have hnone : List.lookup k (t.filter fun p => q p.2) = none :=
            lookup_eq_none_of_not_mem_keys k _ fun hmem => hnotmem (hsub hmem)
          rw [hnone]
          constructor
          · intro h'
            exact absurd h' (by simp)
          · intro h'
            have hvb : v = b := by
              have := h'.1
              rw [Option.some_inj] at this
              exact this.symm
            rw [hvb] at h'
            exact absurd h'.2 hq
      · have hL : List.lookup k (((a, b) :: t).filter fun p => q p.2)
            = List.lookup k (t.filter fun p => q p.2) := by
          by_cases hq : q b = true
          · rw [List.filter_cons_of_pos (by simpa using hq), lookup_cons, if_neg hk]
          · rw [List.filter_cons_of_neg (by simpa using hq)]
        rw [hL, lookup_cons, if_neg hk]
        exact ih hnd

/-! ## Claim theorems -/

/-- C3: `IsReady()` returns true if and only if a local LeaseSet exists, that
LeaseSet has at least one non-expired lease, and the tunnel pool's
outbound-tunnel count is at least 1.  `IsReady` is a pure function of the
current fields and the current time, so the value is recomputed from current
state on every call, never cached. -/
theorem isReady_iff (d : ClientDestination) (now : Nat) :
    d.IsReady now = true ↔
      ∃ ls, d.m_LeaseSet = some ls ∧
        (∃ l ∈ ls.leases, now < l.end_date) ∧
        1 ≤ d.m_Pool.GetOutboundTunnels.length := by
  cases h : d.m_LeaseSet with
  | none => simp [ClientDestination.IsReady, h]
  | some ls =>
      simp [ClientDestination.IsReady, h, LeaseSet.HasNonExpiredLeases,
        List.any_eq_true, Nat.lt_iff_add_one_le]

/-- C7: for a hash whose cache entry has at least one non-expired lease,
`RequestDestination` invokes the completion callback with the cached value
and does nothing else: no lookup query is sent, no request object is created,
the state is unchanged. -/
theorem requestDestination_cached (d : ClientDestination) (netdb : List IdentHash)
    (now : Nat) (dest : IdentHash) (c : Callback) (ls : LeaseSet)
    (hcache : List.lookup dest d.m_RemoteLeaseSets = some ls)
    (hlive : ls.HasNonExpiredLeases now = true) :
    d.RequestDestination netdb now dest (some c)
        = (d, [Event.callbackInvoked now c (some ls)]) ∧
    lookupEvents (d.RequestDestination netdb now dest (some c)).2 = [] ∧
    (d.RequestDestination netdb now dest (some c)).1.m_LeaseSetRequests
        = d.m_LeaseSetRequests := by
  have h : d.RequestDestination netdb now dest (some c)
      = (d, [Event.callbackInvoked now c (some ls)]) := by
    simp [ClientDestination.RequestDestination, hcache, hlive, invoke]
  exact ⟨h, by simp [h, lookupEvents], by simp [h]⟩

/-- Witness for C7 at a concrete input: destination with lease set `lsA`
cached for hash 10, request at time 0 with callback 9. -/
theorem requestDestination_cached_witness :
    List.lookup 10 ({ dEmpty with m_RemoteLeaseSets := [(10, lsA)] }
        : ClientDestination).m_RemoteLeaseSets = some lsA ∧
    lsA.HasNonExpiredLeases 0 = true ∧
    ({ dEmpty with m_RemoteLeaseSets := [(10, lsA)] }
        : ClientDestination).RequestDestination [5] 0 10 (some 9)
      = ({ dEmpty with m_RemoteLeaseSets := [(10, lsA)] },
         [Event.callbackInvoked 0 9 (some lsA)]) :=
  ⟨by decide, by decide,
   (requestDestination_cached { dEmpty with m_RemoteLeaseSets := [(10, lsA)] }
      [5] 0 10 9 lsA (by decide) (by decide)).1⟩

/-- C9: the get-or-create operation on the per-port stream multiplexer map
returns the existing endpoint for a port when one is registered (changing
nothing), otherwise registers and returns the new endpoint, leaving other
ports untouched; a subsequent call for the same port returns the very same
endpoint without further change. -/
theorem createStreamingDestination_get_or_create (d : ClientDestination)
    (port fresh f2 : Nat) :
    (∀ s, List.lookup port d.m_StreamingDestinationsByPorts = some s →
        d.CreateStreamingDestination port fresh = (d, s)) ∧
    (List.lookup port d.m_StreamingDestinationsByPorts = none →
        (d.CreateStreamingDestination port fresh).2 = fresh ∧
        List.lookup port
            (d.CreateStreamingDestination port fresh).1.m_StreamingDestinationsByPorts
          = some fresh ∧
        ∀ q, q ≠ port →
          List.lookup q
              (d.CreateStreamingDestination port fresh).1.m_StreamingDestinationsByPorts
            = List.lookup q d.m_StreamingDestinationsByPorts) ∧
    ((d.CreateStreamingDestination port fresh).1.CreateStreamingDestination port f2
        = ((d.CreateStreamingDestination port fresh).1,
           (d.CreateStreamingDestination port fresh).2)) := by
  refine ⟨?_, ?_, ?_⟩
  · intro s hs
    simp [ClientDestination.CreateStreamingDestination, hs]
  · intro hnone
    refine ⟨?_, ?_, ?_⟩
    · simp [ClientDestination.CreateStreamingDestination, hnone]
    · simp [ClientDestination.CreateStreamingDestination, hnone,
        lookup_alInsert_self]
    · intro q hq
      simp [ClientDestination.CreateStreamingDestination, hnone,
        lookup_alInsert_ne port q fresh _ hq]
  · cases hs : List.lookup port d.m_StreamingDestinationsByPorts with
    | some s =>
        simp [ClientDestination.CreateStreamingDestination, hs]
    | none =>
        have h1 : (d.CreateStreamingDestination port fresh)
            = ({ d with m_StreamingDestinationsByPorts :=
                  alInsert port fresh d.m_StreamingDestinationsByPorts }, fresh) := by
          simp [ClientDestination.CreateStreamingDestination, hs]
        rw [h1]
        simp [ClientDestination.CreateStreamingDestination,
          lookup_alInsert_self port fresh]

/-- Witness for C9 at concrete inputs: port 80 already mapped to endpoint 7
is returned as-is; port 81 absent gets the fresh endpoint 99. -/
theorem createStreamingDestination_get_or_create_witness :
    ({ dEmpty with m_StreamingDestinationsByPorts := [(80, 7)] }
        : ClientDestination).CreateStreamingDestination 80 99
      = ({ dEmpty with m_StreamingDestinationsByPorts := [(80, 7)] }, 7) ∧
    (dEmpty.CreateStreamingDestination 81 99).2 = 99 ∧
    List.lookup 81
        (dEmpty.CreateStreamingDestination 81 99).1.m_StreamingDestinationsByPorts
      = some 99 :=
  ⟨(createStreamingDestination_get_or_create
      { dEmpty with m_StreamingDestinationsByPorts := [(80, 7)] } 80 99 0).1 7 (by decide),
   ((createStreamingDestination_get_or_create dEmpty 81 99 0).2.1 (by decide)).1,
   ((createStreamingDestination_get_or_create dEmpty 81 99 0).2.1 (by decide)).2.1⟩

/-- C8: the cleanup sweep removes from the remote lease-set cache exactly the
entries whose lease set has no non-expired lease (an entry survives iff it was
there and still has a live lease), leaves the pending-request table and every
other destination field unchanged, and the periodic handler re-arms the sweep
timer `DESTINATION_CLEANUP_TIMEOUT` minutes (1200 seconds) ahead. -/
theorem cleanupRemoteLeaseSets_spec (d : ClientDestination) (now : Nat)
    (hnd : KeysNodup d.m_RemoteLeaseSets) :
    (∀ k ls, List.lookup k (d.CleanupRemoteLeaseSets now).m_RemoteLeaseSets = some ls ↔
        (List.lookup k d.m_RemoteLeaseSets = some ls ∧
         ls.HasNonExpiredLeases now = true)) ∧
    (d.CleanupRemoteLeaseSets now).m_LeaseSetRequests = d.m_LeaseSetRequests ∧
    (d.CleanupRemoteLeaseSets now).m_IsRunning = d.m_IsRunning ∧
    (d.CleanupRemoteLeaseSets now).m_Pool = d.m_Pool ∧
    (d.CleanupRemoteLeaseSets now).m_LeaseSet = d.m_LeaseSet ∧
    (d.CleanupRemoteLeaseSets now).m_PublishReplyToken = d.m_PublishReplyToken ∧
    (d.CleanupRemoteLeaseSets now).m_ExcludedFloodfills = d.m_ExcludedFloodfills ∧
    (d.CleanupRemoteLeaseSets now).m_StreamingDestinationsByPorts
        = d.m_StreamingDestinationsByPorts ∧
    (d.CleanupRemoteLeaseSets now).m_PublishConfirmationTimer
        = d.m_PublishConfirmationTimer ∧
    (d.CleanupRemoteLeaseSets now).m_LeaseSetDirty = d.m_LeaseSetDirty ∧
    (d.HandleCleanupTimer now).1.m_CleanupTimer
        = some (now + DESTINATION_CLEANUP_TIMEOUT * 60) ∧
    (d.HandleCleanupTimer now).1.m_RemoteLeaseSets
        = (d.CleanupRemoteLeaseSets now).m_RemoteLeaseSets ∧
    (d.HandleCleanupTimer now).1.m_LeaseSetRequests = d.m_LeaseSetRequests := by
  refine ⟨?_, rfl, rfl, rfl, rfl, rfl, rfl, rfl, rfl, rfl, rfl, rfl, rfl⟩
  intro k ls
  have h := lookup_filter_of_keysNodup (fun ls2 => ls2.HasNonExpiredLeases now) k
    d.m_RemoteLeaseSets hnd ls
  simpa [ClientDestination.CleanupRemoteLeaseSets] using h

/-- Witness for C8 at a concrete input: cache holding live `lsA` under 10 and
expired `lsOld` under 11, swept at time 50: 10 survives, 11 is evicted,
requests untouched. -/
theorem cleanupRemoteLeaseSets_spec_witness :
    KeysNodup ({ dEmpty with m_RemoteLeaseSets := [(10, lsA), (11, lsOld)] }
        : ClientDestination).m_RemoteLeaseSets ∧
    (List.lookup 10 (({ dEmpty with m_RemoteLeaseSets := [(10, lsA), (11, lsOld)] }
          : ClientDestination).CleanupRemoteLeaseSets 50).m_RemoteLeaseSets = some lsA ↔
        (List.lookup 10 ({ dEmpty with m_RemoteLeaseSets := [(10, lsA), (11, lsOld)] }
            : ClientDestination).m_RemoteLeaseSets = some lsA ∧
         lsA.HasNonExpiredLeases 50 = true)) ∧
    (({ dEmpty with m_RemoteLeaseSets := [(10, lsA), (11, lsOld)] }
        : ClientDestination).CleanupRemoteLeaseSets 50).m_LeaseSetRequests
      = ({ dEmpty with m_RemoteLeaseSets := [(10, lsA), (11, lsOld)] }
        : ClientDestination).m_LeaseSetRequests :=
  ⟨by unfold KeysNodup; decide,
   (cleanupRemoteLeaseSets_spec
      { dEmpty with m_RemoteLeaseSets := [(10, lsA), (11, lsOld)] } 50
      (by unfold KeysNodup; decide)).1 10 lsA,
   (cleanupRemoteLeaseSets_spec
      { dEmpty with m_RemoteLeaseSets := [(10, lsA), (11, lsOld)] } 50
      (by unfold KeysNodup; decide)).2.1⟩

/-- C4: a delivery-status message confirms the publish cycle iff its token
equals the outstanding publish token: a matching token clears the excluded
set and the outstanding token; a mismatched token leaves the state (in
particular the excluded-peer set) unchanged and is forwarded to the streaming
layer; a duplicate of the confirmed token arriving after confirmation has no
effect on the publish state. -/
theorem deliveryStatus_confirms_iff_token_matches (d : ClientDestination)
    (T tok : Nat) (hout : d.m_PublishReplyToken = T) (hT : T ≠ 0) :
    (tok = T →
        d.HandleDeliveryStatusMessage tok =
          ({ d with m_ExcludedFloodfills := [], m_PublishReplyToken := 0 },
           [Event.publishConfirmed tok])) ∧
    (tok ≠ T →
        d.HandleDeliveryStatusMessage tok = (d, [Event.forwardedToStreaming tok])) ∧
    ((d.HandleDeliveryStatusMessage T).1.HandleDeliveryStatusMessage T
        = ((d.HandleDeliveryStatusMessage T).1, [Event.forwardedToStreaming T])) := by
  refine ⟨?_, ?_, ?_⟩
  · intro h
    subst h
    simp [ClientDestination.HandleDeliveryStatusMessage, hout]
  · intro h
    simp [ClientDestination.HandleDeliveryStatusMessage, hout, h]
  · have h1 : (d.HandleDeliveryStatusMessage T).1
        = { d with m_ExcludedFloodfills := [], m_PublishReplyToken := 0 } := by
      simp [ClientDestination.HandleDeliveryStatusMessage, hout]
    rw [h1]
    simp [ClientDestination.HandleDeliveryStatusMessage, hT]

/-- Witness for C4 at a concrete input: outstanding token 77.  A matching
delivery-status confirms and clears the excluded set; token 5 is forwarded
and changes nothing. -/
theorem deliveryStatus_confirms_iff_token_matches_witness :
    dPub.m_PublishReplyToken = 77 ∧ (77 : Nat) ≠ 0 ∧
    dPub.HandleDeliveryStatusMessage 77 =
      ({ dPub with m_ExcludedFloodfills := [], m_PublishReplyToken := 0 },
       [Event.publishConfirmed 77]) ∧
    dPub.HandleDeliveryStatusMessage 5 = (dPub, [Event.forwardedToStreaming 5]) :=
  ⟨rfl, by decide,
   (deliveryStatus_confirms_iff_token_matches dPub 77 77 rfl (by decide)).1 rfl,
   (deliveryStatus_confirms_iff_token_matches dPub 77 5 rfl (by decide)).2.1 (by decide)⟩

theorem publish_step (d : ClientDestination) (netdb : List IdentHash)
    (t tk p : Nat)
    (hp : GetClosestFloodfill netdb d.m_ExcludedFloodfills = some p) :
    d.Publish netdb t tk =
      ({ d with
          m_ExcludedFloodfills := p :: d.m_ExcludedFloodfills,
          m_PublishReplyToken := tk,
          m_PublishConfirmationTimer := some (t + PUBLISH_CONFIRMATION_TIMEOUT),
          m_LeaseSetDirty := false },
       [Event.publishSent t p tk]) := by
  simp [ClientDestination.Publish, hp]

theorem getClosestFloodfill_mem (netdb : List IdentHash) (excl : List IdentHash)
    (p : IdentHash) (hp : GetClosestFloodfill netdb excl = some p) :
    p ∈ netdb ∧ (excl.contains p) = false := by
  have hmem := List.mem_of_find?_eq_some hp
  have hpred := List.find?_some hp
  refine ⟨hmem, ?_⟩
  simpa using hpred

theorem filter_length_after_exclude (netdb : List IdentHash) (hnd : netdb.Nodup)
    (excl : List IdentHash) (p : IdentHash)
    (hp : GetClosestFloodfill netdb excl = some p) :
    (netdb.filter fun q => !((p :: excl).contains q)).length + 1
      = (netdb.filter fun q => !(excl.contains q)).length := by
  obtain ⟨hmem, hnotex⟩ := getClosestFloodfill_mem netdb excl p hp
  have h1 : (netdb.filter fun q => !((p :: excl).contains q))
      = (netdb.filter fun q => !(excl.contains q)).filter fun q => q != p := by
    rw [List.filter_filter]
    apply List.filter_congr
    intro a _
    by_cases hap : a = p
    · simp [hap, hnotex]
    · simp [hap, List.contains_cons]
  have hpL : p ∈ netdb.filter fun q => !(excl.contains q) := by
    apply List.mem_filter.mpr
    refine ⟨hmem, ?_⟩
    show (!excl.contains p) = true
    rw [hnotex]
    rfl
  have hndL : (netdb.filter fun q => !(excl.contains q)).Nodup :=
    List.Nodup.filter _ hnd
  have h2 : (netdb.filter fun q => !(excl.contains q)).filter (fun q => q != p)
      = (netdb.filter fun q => !(excl.contains q)).erase p :=
    (hndL.erase_eq_filter p).symm
  have h3 := List.length_erase_of_mem hpL
  have h4 : 0 < (netdb.filter fun q => !(excl.contains q)).length :=
    List.length_pos.mpr (List.ne_nil_of_mem hpL)
  rw [h1, h2, h3]
  omega

theorem firePublishRetries_tokens (netdb : List IdentHash) (hnd : netdb.Nodup) :
    ∀ (tokens : List Nat) (d : ClientDestination),
      d.m_PublishReplyToken ≠ 0 →
      (∀ tk ∈ tokens, tk ≠ 0) →
      d.m_PublishConfirmationTimer.isSome = true →
      tokens.length ≤ (netdb.filter fun q => !(d.m_ExcludedFloodfills.contains q)).length →
      (publishEvents (firePublishRetries netdb tokens d).2).map (fun e => e.2.2) = tokens ∧
      (firePublishRetries netdb tokens d).1.m_PublishReplyToken ≠ 0 := by
  intro tokens
  induction tokens with
  | nil =>
      intro d hT htk htimer hlen
      exact ⟨by simp [firePublishRetries, publishEvents], hT⟩
  | cons tk rest ih =>
      intro d hT htk htimer hlen
      obtain ⟨t, ht⟩ := Option.isSome_iff_exists.mp htimer
      have hpos : 0 < (netdb.filter fun q => !(d.m_ExcludedFloodfills.contains q)).length := by
        have := hlen
        simp only [List.length_cons] at this
        omega
      obtain ⟨p, hp⟩ : ∃ p, GetClosestFloodfill netdb d.m_ExcludedFloodfills = some p := by
        have hne : (netdb.filter fun q => !(d.m_ExcludedFloodfills.contains q)) ≠ [] :=
          List.ne_nil_of_length_pos hpos
        obtain ⟨x, hx⟩ := List.exists_mem_of_ne_nil _ hne
        have hx2 := List.mem_filter.mp hx
        have hsome : (netdb.find? fun q => !(d.m_ExcludedFloodfills.contains q)).isSome := by
          rw [List.find?_isSome]
          exact ⟨x, hx2.1, hx2.2⟩
        exact Option.isSome_iff_exists.mp hsome
      have hstep : d.HandlePublishConfirmationTimer netdb t tk =
          ({ d with
              m_ExcludedFloodfills := p :: d.m_ExcludedFloodfills,
              m_PublishReplyToken := tk,
              m_PublishConfirmationTimer := some (t + PUBLISH_CONFIRMATION_TIMEOUT),
              m_LeaseSetDirty := false },
           [Event.publishSent t p tk]) := by
        rw [ClientDestination.HandlePublishConfirmationTimer, if_pos hT]
        exact publish_step d netdb t tk p hp
      have hrun : firePublishRetries netdb (tk :: rest) d =
          ((firePublishRetries netdb rest
              ({ d with
                  m_ExcludedFloodfills := p :: d.m_ExcludedFloodfills,
                  m_PublishReplyToken := tk,
                  m_PublishConfirmationTimer := some (t + PUBLISH_CONFIRMATION_TIMEOUT),
                  m_LeaseSetDirty := false } : ClientDestination)).1,
           [Event.publishSent t p tk] ++
             (firePublishRetries netdb rest
                ({ d with
                    m_ExcludedFloodfills := p :: d.m_ExcludedFloodfills,
                    m_PublishReplyToken := tk,
                    m_PublishConfirmationTimer := some (t + PUBLISH_CONFIRMATION_TIMEOUT),
                    m_LeaseSetDirty := false } : ClientDestination)).2) := by
        rw [firePublishRetries, ht]
        simp only [hstep]
      have hlen2 : rest.length ≤
          ((netdb.filter fun q =>
            !((p :: d.m_ExcludedFloodfills).contains q)).length) := by
        have hc := filter_length_after_exclude netdb hnd d.m_ExcludedFloodfills p hp
        simp only [List.length_cons] at hlen
        omega
      have hrec := ih
        ({ d with
            m_ExcludedFloodfills := p :: d.m_ExcludedFloodfills,
            m_PublishReplyToken := tk,
            m_PublishConfirmationTimer := some (t + PUBLISH_CONFIRMATION_TIMEOUT),
            m_LeaseSetDirty := false } : ClientDestination)
        (htk tk (by simp)) (fun x hx => htk x (by simp [hx])) rfl hlen2
      constructor
      · rw [hrun]
        simp only [publishEvents, List.filterMap_append, List.map_append]
        have h5 := hrec.1
        simp only [publishEvents] at h5
        rw [h5]
        rfl
      · rw [hrun]
        exact hrec.2

/-- C5: on expiry of the 5-second publish confirmation timer without a
matching confirmation, the lease set is republished to a floodfill outside
the excluded set (the previously targeted peer being already recorded there),
the timer is re-armed 5 seconds ahead and the excluded set only grows; no
retry counter exists, so for ANY number of consecutive unconfirmed expiries
(any token list, given enough distinct floodfills) every expiry republishes;
the excluded set is cleared exactly on confirmation. -/
theorem publishConfirmationTimer_retries (d : ClientDestination)
    (netdb : List IdentHash) (now newToken : Nat) (p : IdentHash)
    (hT : d.m_PublishReplyToken ≠ 0)
    (hpeer : GetClosestFloodfill netdb d.m_ExcludedFloodfills = some p) :
    (d.HandlePublishConfirmationTimer netdb now newToken =
        ({ d with
            m_ExcludedFloodfills := p :: d.m_ExcludedFloodfills,
            m_PublishReplyToken := newToken,
            m_PublishConfirmationTimer := some (now + PUBLISH_CONFIRMATION_TIMEOUT),
            m_LeaseSetDirty := false },
         [Event.publishSent now p newToken])) ∧
    p ∉ d.m_ExcludedFloodfills ∧
    (∀ tokens : List Nat, netdb.Nodup → (∀ tk ∈ tokens, tk ≠ 0) →
        d.m_PublishConfirmationTimer.isSome = true →
        tokens.length ≤
          (netdb.filter fun q => !(d.m_ExcludedFloodfills.contains q)).length →
        (publishEvents (firePublishRetries netdb tokens d).2).map (fun e => e.2.2)
          = tokens) ∧
    (∀ d2 : ClientDestination,
        (d2.HandleDeliveryStatusMessage d2.m_PublishReplyToken).1.m_ExcludedFloodfills
          = []) := by
  refine ⟨?_, ?_, ?_, ?_⟩
  · rw [ClientDestination.HandlePublishConfirmationTimer, if_pos hT]
    exact publish_step d netdb now newToken p hpeer
  · have h := (getClosestFloodfill_mem netdb d.m_ExcludedFloodfills p hpeer).2
    intro hmem
    simp only [List.contains, List.elem_eq_mem, decide_eq_false_iff_not] at h
    exact h hmem
  · intro tokens hnd htk htimer hlen
    exact (firePublishRetries_tokens netdb hnd tokens d hT htk htimer hlen).1
  · intro d2
    simp [ClientDestination.HandleDeliveryStatusMessage]

/-- Witness for C5 at a concrete input: destination `dPub` (token 77,
floodfill 3 excluded, timer armed at 5) with floodfills [3, 4]: the expiry at
time 5 republishes to floodfill 4 with fresh token 88, and the one-element
retry run emits exactly that publish. -/
theorem publishConfirmationTimer_retries_witness :
    dPub.m_PublishReplyToken ≠ 0 ∧
    GetClosestFloodfill [3, 4] dPub.m_ExcludedFloodfills = some 4 ∧
    dPub.HandlePublishConfirmationTimer [3, 4] 5 88 =
      ({ dPub with
          m_ExcludedFloodfills := 4 :: dPub.m_ExcludedFloodfills,
          m_PublishReplyToken := 88,
          m_PublishConfirmationTimer := some (5 + PUBLISH_CONFIRMATION_TIMEOUT),
          m_LeaseSetDirty := false },
       [Event.publishSent 5 4 88]) ∧
    (publishEvents (firePublishRetries [3, 4] [88] dPub).2).map (fun e => e.2.2)
      = [88] :=
  ⟨by decide, by decide,
   (publishConfirmationTimer_retries dPub [3, 4] 5 88 4 (by decide) (by decide)).1,
   (publishConfirmationTimer_retries dPub [3, 4] 5 88 4 (by decide) (by decide)).2.2.1
     [88] (by decide) (by decide) (by decide) (by decide)⟩

/-- C6: `Stop()` cancels every armed timer and discards all still-unresolved
lease-set requests and the outstanding publish cycle without emitting any
event (in particular no completion callback fires); `Start()` afterwards
yields state equivalent to first construction — empty pending-request set,
empty remote lease-set cache, dirty flag clear — and on the post-`Stop`
state both the request-timeout handler and the publish-confirmation handler
are no-ops, so no timer of the pre-`Stop` run can ever have an effect. -/
theorem stop_start_reset (d : ClientDestination) (netdb : List IdentHash)
    (now t2 tok : Nat) (dest : IdentHash) :
    (d.Stop.2 = [] ∧
     d.Stop.1.m_LeaseSetRequests = [] ∧
     d.Stop.1.m_PublishConfirmationTimer = none ∧
     d.Stop.1.m_CleanupTimer = none ∧
     d.Stop.1.m_PublishReplyToken = 0) ∧
    ((d.Stop.1.Start t2).1.m_LeaseSetRequests = [] ∧
     (d.Stop.1.Start t2).1.m_RemoteLeaseSets = [] ∧
     (d.Stop.1.Start t2).1.m_LeaseSetDirty = false ∧
     (d.Stop.1.Start t2).1.m_IsRunning = true ∧
     (d.Stop.1.Start t2).1.m_PublishReplyToken = 0 ∧
     (d.Stop.1.Start t2).1.m_PublishConfirmationTimer = none) ∧
    (d.Stop.1.HandleRequestTimoutTimer netdb now dest = (d.Stop.1, [])) ∧
    (d.Stop.1.HandlePublishConfirmationTimer netdb now tok = (d.Stop.1, [])) ∧
    ((d.Stop.1.Start t2).1.HandleRequestTimoutTimer netdb now dest
        = ((d.Stop.1.Start t2).1, [])) := by
  have hstop : d.Stop.1.m_IsRunning = false := rfl
  refine ⟨⟨rfl, rfl, rfl, rfl, rfl⟩, ?_, ?_, ?_, ?_⟩
  · rw [ClientDestination.Start, hstop]
    exact ⟨rfl, rfl, rfl, rfl, rfl, rfl⟩
  · rw [ClientDestination.HandleRequestTimoutTimer]
    have h : List.lookup dest d.Stop.1.m_LeaseSetRequests = none := rfl
    rw [h]
  · rw [ClientDestination.HandlePublishConfirmationTimer]
    have h : d.Stop.1.m_PublishReplyToken = 0 := rfl
    rw [h]
    simp
  · rw [ClientDestination.HandleRequestTimoutTimer]
    have h : List.lookup dest (d.Stop.1.Start t2).1.m_LeaseSetRequests = none := by
      rw [ClientDestination.Start, hstop]
      rfl
    rw [h]

/-- C2: at most one live request per hash.  A second `RequestDestination`
call for a hash with a request already in flight sends no outbound lookup
and leaves the destination state untouched; a request is destroyed on
completion — success (database store), exhaustion (timeout budget spent) or
cancellation (`Stop`) — and the request-map keys stay pairwise distinct
under every operation, so a hash never has two live requests. -/
theorem leaseSetRequest_at_most_one (d : ClientDestination)
    (netdb : List IdentHash) (now : Nat) (dest : IdentHash)
    (cb2 : Option Callback) (req : LeaseSetRequest) (ls : LeaseSet) :
    (List.lookup dest d.m_LeaseSetRequests = some req →
        lookupEvents (d.RequestDestination netdb now dest cb2).2 = [] ∧
        (d.RequestDestination netdb now dest cb2).1 = d) ∧
    (List.lookup ls.ident
        (d.HandleDatabaseStoreMessage now ls).1.m_LeaseSetRequests = none) ∧
    (List.lookup dest d.m_LeaseSetRequests = some req →
        ¬(now < req.request_time + MAX_LEASESET_REQUEST_TIMEOUT ∧
           req.excluded.length < MAX_NUM_FLOODFILLS_PER_REQUEST) →
        List.lookup dest
            (d.HandleRequestTimoutTimer netdb now dest).1.m_LeaseSetRequests = none) ∧
    (d.Stop.1.m_LeaseSetRequests = []) ∧
    (KeysNodup d.m_LeaseSetRequests →
        KeysNodup (d.RequestDestination netdb now dest cb2).1.m_LeaseSetRequests ∧
        KeysNodup (d.HandleRequestTimoutTimer netdb now dest).1.m_LeaseSetRequests ∧
        KeysNodup (d.HandleDatabaseStoreMessage now ls).1.m_LeaseSetRequests) := by
  refine ⟨?_, ?_, ?_, rfl, ?_⟩
  · intro hpend
    cases hc : List.lookup dest d.m_RemoteLeaseSets with
    | none =>
        simp only [ClientDestination.RequestDestination, hc,
          ClientDestination.RequestLeaseSet, hpend]
        exact ⟨by simp [lookupEvents], by simp⟩
    | some ls2 =>
        by_cases hl : ls2.HasNonExpiredLeases now = true
        · simp only [ClientDestination.RequestDestination, hc]
          rw [if_pos hl]
          cases cb2 <;> simp [invoke, lookupEvents]
        · simp only [ClientDestination.RequestDestination, hc]
          rw [if_neg hl]
          simp only [ClientDestination.RequestLeaseSet, hpend]
          exact ⟨by simp [lookupEvents], by simp⟩
  · rw [ClientDestination.HandleDatabaseStoreMessage]
    cases hr : List.lookup ls.ident d.m_LeaseSetRequests with
    | none => simpa using hr
    | some r => simp [lookup_alErase_self]
  · intro hpend hcond
    simp only [ClientDestination.HandleRequestTimoutTimer, hpend]
    rw [if_neg hcond]
    simp [lookup_alErase_self]
  · intro hnd
    refine ⟨?_, ?_, ?_⟩
    · cases hc : List.lookup dest d.m_RemoteLeaseSets with
      | none =>
          simp only [ClientDestination.RequestDestination, hc,
            ClientDestination.RequestLeaseSet]
          cases hr : List.lookup dest d.m_LeaseSetRequests with
          | some r => exact hnd
          | none =>
              cases hf : GetClosestFloodfill netdb [] with
              | none => simpa using hnd
              | some peer =>
                  simp only [hf]
                  simpa using keysNodup_alInsert dest _ _ hnd
      | some ls2 =>
          by_cases hl : ls2.HasNonExpiredLeases now = true
          · simp only [ClientDestination.RequestDestination, hc]
            rw [if_pos hl]
            exact hnd
          · simp only [ClientDestination.RequestDestination, hc]
            rw [if_neg hl]
            simp only [ClientDestination.RequestLeaseSet]
            cases hr : List.lookup dest d.m_LeaseSetRequests with
            | some r => exact hnd
            | none =>
                cases hf : GetClosestFloodfill netdb [] with
                | none => simpa using hnd
                | some peer =>
                    simp only [hf]
                    simpa using keysNodup_alInsert dest _ _ hnd
    · cases hr : List.lookup dest d.m_LeaseSetRequests with
      | none =>
          simp only [ClientDestination.HandleRequestTimoutTimer, hr]
          exact hnd
      | some r =>
          by_cases hcond : now < r.request_time + MAX_LEASESET_REQUEST_TIMEOUT ∧
              r.excluded.length < MAX_NUM_FLOODFILLS_PER_REQUEST
          · cases hf : GetClosestFloodfill netdb r.excluded with
            | some peer =>
                simp only [ClientDestination.HandleRequestTimoutTimer, hr]
                rw [if_pos hcond]
                simp only [hf]
                simpa using keysNodup_alInsert dest _ _ hnd
            | none =>
                simp only [ClientDestination.HandleRequestTimoutTimer, hr]
                rw [if_pos hcond]
                simp only [hf]
                simpa using keysNodup_alErase dest _ hnd
          · simp only [ClientDestination.HandleRequestTimoutTimer, hr]
            rw [if_neg hcond]
            simpa using keysNodup_alErase dest _ hnd
    · cases hr : List.lookup ls.ident d.m_LeaseSetRequests with
      | none =>
          simp only [ClientDestination.HandleDatabaseStoreMessage, hr]
          exact hnd
      | some r =>
          simp only [ClientDestination.HandleDatabaseStoreMessage, hr]
          simpa using keysNodup_alErase ls.ident _ hnd

/-- Witness for C2 at a concrete input: request `reqA` pending for hash 42.
A second call at time 3 sends nothing and changes nothing; the timeout
handler at time 100 (past the 40-second budget) removes the request. -/
theorem leaseSetRequest_at_most_one_witness :
    List.lookup 42 ({ dEmpty with m_LeaseSetRequests := [(42, reqA)] }
        : ClientDestination).m_LeaseSetRequests = some reqA ∧
    lookupEvents (({ dEmpty with m_LeaseSetRequests := [(42, reqA)] }
        : ClientDestination).RequestDestination [5] 3 42 (some 8)).2 = [] ∧
    (({ dEmpty with m_LeaseSetRequests := [(42, reqA)] }
        : ClientDestination).RequestDestination [5] 3 42 (some 8)).1
      = { dEmpty with m_LeaseSetRequests := [(42, reqA)] } ∧
    List.lookup 42 (({ dEmpty with m_LeaseSetRequests := [(42, reqA)] }
        : ClientDestination).HandleRequestTimoutTimer [5] 100 42).1.m_LeaseSetRequests
      = none :=
  ⟨by decide,
   ((leaseSetRequest_at_most_one { dEmpty with m_LeaseSetRequests := [(42, reqA)] }
      [5] 3 42 (some 8) reqA lsA).1 (by decide)).1,
   ((leaseSetRequest_at_most_one { dEmpty with m_LeaseSetRequests := [(42, reqA)] }
      [5] 3 42 (some 8) reqA lsA).1 (by decide)).2,
   (leaseSetRequest_at_most_one { dEmpty with m_LeaseSetRequests := [(42, reqA)] }
      [5] 100 42 (some 8) reqA lsA).2.2.1 (by decide) (by decide)⟩

theorem lookup_scrub (k : Nat) (m : List (Nat × LeaseSetRequest)) :
    List.lookup k (m.map fun p => (p.1, scrubReq p.2))
      = (List.lookup k m).map scrubReq := by
  induction m with
  | nil => rfl
  | cons p t ih =>
      rcases p with ⟨a, b⟩
      by_cases h : k = a
      · simp [lookup_cons, h]
      · simp [lookup_cons, h, ih]

theorem scrubmap_alErase (k : Nat) (m : List (Nat × LeaseSetRequest)) :
    (alErase k m).map (fun p => (p.1, scrubReq p.2))
      = alErase k (m.map fun p => (p.1, scrubReq p.2)) := by
  induction m with
  | nil => rfl
  | cons p t ih =>
      rcases p with ⟨a, b⟩
      by_cases h : a = k
      · simpa [alErase, h] using ih
      · simpa [alErase, h] using ih

theorem scrubmap_alInsert (k : Nat) (v : LeaseSetRequest)
    (m : List (Nat × LeaseSetRequest)) :
    (alInsert k v m).map (fun p => (p.1, scrubReq p.2))
      = alInsert k (scrubReq v) (m.map fun p => (p.1, scrubReq p.2)) := by
  simp [alInsert, scrubmap_alErase]

theorem callbackEvents_invoke (cb : Option Callback) (t : Nat)
    (r : Option LeaseSet) :
    callbackEvents (invoke cb t r)
      = match cb with | none => [] | some c => [(t, c, r)] := by
  cases cb <;> rfl

theorem nonCallbackEvents_invoke (cb : Option Callback) (t : Nat)
    (r : Option LeaseSet) : nonCallbackEvents (invoke cb t r) = [] := by
  cases cb <;> rfl

theorem requestLeaseSet_scrub (d : ClientDestination) (netdb : List IdentHash)
    (now : Nat) (dest : IdentHash) (c : Callback) :
    ((scrubCallbacks d).RequestLeaseSet netdb now dest none).1
        = scrubCallbacks (d.RequestLeaseSet netdb now dest (some c)).1 ∧
    callbackEvents ((scrubCallbacks d).RequestLeaseSet netdb now dest none).2 = [] ∧
    nonCallbackEvents ((scrubCallbacks d).RequestLeaseSet netdb now dest none).2
        = nonCallbackEvents (d.RequestLeaseSet netdb now dest (some c)).2 := by
  have hl : List.lookup dest (scrubCallbacks d).m_LeaseSetRequests
      = (List.lookup dest d.m_LeaseSetRequests).map scrubReq :=
    lookup_scrub dest d.m_LeaseSetRequests
  cases hr : List.lookup dest d.m_LeaseSetRequests with
  | some req =>
      have hl2 : List.lookup dest (scrubCallbacks d).m_LeaseSetRequests
          = some (scrubReq req) := by
        rw [hl, hr]
        rfl
      simp only [ClientDestination.RequestLeaseSet, hl2, hr]
      exact ⟨by simp [scrubCallbacks], by simp [callbackEvents], by simp [nonCallbackEvents]⟩
  | none =>
      have hl2 : List.lookup dest (scrubCallbacks d).m_LeaseSetRequests = none := by
        rw [hl, hr]
        rfl
      cases hf : GetClosestFloodfill netdb [] with
      | none =>
          simp only [ClientDestination.RequestLeaseSet, hl2, hr, hf]
          exact ⟨by simp [scrubCallbacks, invoke], by simp [callbackEvents, invoke],
            by simp [invoke, nonCallbackEvents]⟩
      | some peer =>
          simp only [ClientDestination.RequestLeaseSet, hl2, hr, hf]
          refine ⟨?_, by simp [callbackEvents, sendLeaseSetRequest],
            by simp [nonCallbackEvents, sendLeaseSetRequest]⟩
          simp only [scrubCallbacks, sendLeaseSetRequest]
          congr 1
          rw [scrubmap_alInsert]
          rfl

theorem handleRequestTimout_scrub (d : ClientDestination) (netdb : List IdentHash)
    (now : Nat) (dest : IdentHash) :
    ((scrubCallbacks d).HandleRequestTimoutTimer netdb now dest).1
        = scrubCallbacks (d.HandleRequestTimoutTimer netdb now dest).1 ∧
    callbackEvents ((scrubCallbacks d).HandleRequestTimoutTimer netdb now dest).2 = [] ∧
    nonCallbackEvents ((scrubCallbacks d).HandleRequestTimoutTimer netdb now dest).2
        = nonCallbackEvents (d.HandleRequestTimoutTimer netdb now dest).2 := by
  have hl : List.lookup dest (scrubCallbacks d).m_LeaseSetRequests
      = (List.lookup dest d.m_LeaseSetRequests).map scrubReq :=
    lookup_scrub dest d.m_LeaseSetRequests
  cases hr : List.lookup dest d.m_LeaseSetRequests with
  | none =>
      have hl2 : List.lookup dest (scrubCallbacks d).m_LeaseSetRequests = none := by
        rw [hl, hr]
        rfl
      simp only [ClientDestination.HandleRequestTimoutTimer, hl2, hr]
      exact ⟨by simp [scrubCallbacks], by simp [callbackEvents], by simp [nonCallbackEvents]⟩
  | some req =>
      have hl2 : List.lookup dest (scrubCallbacks d).m_LeaseSetRequests
          = some (scrubReq req) := by
        rw [hl, hr]
        rfl
      simp only [ClientDestination.HandleRequestTimoutTimer, hl2, hr, scrubReq]
      by_cases hcond : now < req.request_time + MAX_LEASESET_REQUEST_TIMEOUT ∧
          req.excluded.length < MAX_NUM_FLOODFILLS_PER_REQUEST
      · rw [if_pos hcond, if_pos hcond]
        cases hf : GetClosestFloodfill netdb req.excluded with
        | some peer =>
            simp only [hf]
            refine ⟨?_, by simp [callbackEvents, sendLeaseSetRequest],
              by simp [nonCallbackEvents, sendLeaseSetRequest]⟩
            simp only [scrubCallbacks, sendLeaseSetRequest]
            congr 1
            rw [scrubmap_alInsert]
            rfl
        | none =>
            simp only [hf]
            refine ⟨?_, by simp [callbackEvents, invoke],
              by simp [nonCallbackEvents_invoke]⟩
            simp only [scrubCallbacks]
            congr 1
            rw [scrubmap_alErase]
      · rw [if_neg hcond, if_neg hcond]
        refine ⟨?_, by simp [callbackEvents, invoke],
          by simp [nonCallbackEvents_invoke]⟩
        simp only [scrubCallbacks]
        congr 1
        rw [scrubmap_alErase]

theorem handleDatabaseStore_scrub (d : ClientDestination) (now : Nat)
    (ls : LeaseSet) :
    ((scrubCallbacks d).HandleDatabaseStoreMessage now ls).1
        = scrubCallbacks (d.HandleDatabaseStoreMessage now ls).1 ∧
    callbackEvents ((scrubCallbacks d).HandleDatabaseStoreMessage now ls).2 = [] := by
  have hl : List.lookup ls.ident (scrubCallbacks d).m_LeaseSetRequests
      = (List.lookup ls.ident d.m_LeaseSetRequests).map scrubReq :=
    lookup_scrub ls.ident d.m_LeaseSetRequests
  cases hr : List.lookup ls.ident d.m_LeaseSetRequests with
  | none =>
      have hl2 : List.lookup ls.ident (scrubCallbacks d).m_LeaseSetRequests = none := by
        rw [hl, hr]
        rfl
      simp only [ClientDestination.HandleDatabaseStoreMessage, hl2, hr]
      exact ⟨by simp [scrubCallbacks], by simp [callbackEvents]⟩
  | some req =>
      have hl2 : List.lookup ls.ident (scrubCallbacks d).m_LeaseSetRequests
          = some (scrubReq req) := by
        rw [hl, hr]
        rfl
      simp only [ClientDestination.HandleDatabaseStoreMessage, hl2, hr, scrubReq]
      refine ⟨?_, by simp [callbackEvents, invoke]⟩
      simp only [scrubCallbacks]
      congr 1
      rw [scrubmap_alErase]

/-- C10: `RequestDestination` may be called with the null callback sentinel
(`request_complete = nullptr`, the default of destination.h line 130).
Completing such a request — from cache, by timeout exhaustion, or with a
found lease set from a database store — invokes no callback (and thus never
dereferences the null sentinel, which the model never inspects beyond a
definedness match), while the rest of the state transition is identical to
the with-callback run: the two runs agree on all state up to the stored
callbacks themselves and on all non-callback events. -/
theorem requestDestination_null_callback (d : ClientDestination)
    (netdb : List IdentHash) (now : Nat) (dest : IdentHash) (c : Callback)
    (ls : LeaseSet) :
    callbackEvents ((scrubCallbacks d).RequestDestination netdb now dest none).2 = [] ∧
    ((scrubCallbacks d).RequestDestination netdb now dest none).1
        = scrubCallbacks (d.RequestDestination netdb now dest (some c)).1 ∧
    nonCallbackEvents ((scrubCallbacks d).RequestDestination netdb now dest none).2
        = nonCallbackEvents (d.RequestDestination netdb now dest (some c)).2 ∧
    callbackEvents ((scrubCallbacks d).HandleRequestTimoutTimer netdb now dest).2 = [] ∧
    ((scrubCallbacks d).HandleRequestTimoutTimer netdb now dest).1
        = scrubCallbacks (d.HandleRequestTimoutTimer netdb now dest).1 ∧
    nonCallbackEvents ((scrubCallbacks d).HandleRequestTimoutTimer netdb now dest).2
        = nonCallbackEvents (d.HandleRequestTimoutTimer netdb now dest).2 ∧
    callbackEvents ((scrubCallbacks d).HandleDatabaseStoreMessage now ls).2 = [] ∧
    ((scrubCallbacks d).HandleDatabaseStoreMessage now ls).1
        = scrubCallbacks (d.HandleDatabaseStoreMessage now ls).1 := by
  have hreq := requestLeaseSet_scrub d netdb now dest c
  have hto := handleRequestTimout_scrub d netdb now dest
  have hst := handleDatabaseStore_scrub d now ls
  refine ⟨?_, ?_, ?_, hto.2.1, hto.1, hto.2.2, hst.2, hst.1⟩
  · cases hc : List.lookup dest d.m_RemoteLeaseSets with
    | none =>
        have hc2 : List.lookup dest (scrubCallbacks d).m_RemoteLeaseSets = none := hc
        simp only [ClientDestination.RequestDestination, hc2]
        exact hreq.2.1
    | some ls2 =>
        have hc2 : List.lookup dest (scrubCallbacks d).m_RemoteLeaseSets
            = some ls2 := hc
        simp only [ClientDestination.RequestDestination, hc2]
        by_cases hlive : ls2.HasNonExpiredLeases now = true
        · rw [if_pos hlive]
          simp [callbackEvents, invoke]
        · rw [if_neg hlive]
          exact hreq.2.1
  · cases hc : List.lookup dest d.m_RemoteLeaseSets with
    | none =>
        have hc2 : List.lookup dest (scrubCallbacks d).m_RemoteLeaseSets = none := hc
        simp only [ClientDestination.RequestDestination, hc2, hc]
        exact hreq.1
    | some ls2 =>
        have hc2 : List.lookup dest (scrubCallbacks d).m_RemoteLeaseSets
            = some ls2 := hc
        simp only [ClientDestination.RequestDestination, hc2, hc]
        by_cases hlive : ls2.HasNonExpiredLeases now = true
        · rw [if_pos hlive, if_pos hlive]
        · rw [if_neg hlive, if_neg hlive]
          exact hreq.1
  · cases hc : List.lookup dest d.m_RemoteLeaseSets with
    | none =>
        have hc2 : List.lookup dest (scrubCallbacks d).m_RemoteLeaseSets = none := hc
        simp only [ClientDestination.RequestDestination, hc2, hc]
        exact hreq.2.2
    | some ls2 =>
        have hc2 : List.lookup dest (scrubCallbacks d).m_RemoteLeaseSets
            = some ls2 := hc
        simp only [ClientDestination.RequestDestination, hc2, hc]
        by_cases hlive : ls2.HasNonExpiredLeases now = true
        · rw [if_pos hlive, if_pos hlive]
          simp [nonCallbackEvents_invoke]
        · rw [if_neg hlive, if_neg hlive]
          exact hreq.2.2

theorem fireTimeouts_no_request (netdb : List IdentHash) (dest : IdentHash)
    (fuel : Nat) (d : ClientDestination)
    (h : List.lookup dest d.m_LeaseSetRequests = none) :
    fireTimeouts netdb dest fuel d = (d, []) := by
  cases fuel with
  | zero => rfl
  | succ n => simp only [fireTimeouts, h]

theorem callbackEvents_append (a b : List Event) :
    callbackEvents (a ++ b) = callbackEvents a ++ callbackEvents b := by
  simp [callbackEvents]

theorem callbackEvents_send (now dest peer : Nat) (req : LeaseSetRequest) :
    callbackEvents (sendLeaseSetRequest now dest peer req).2 = [] := rfl

theorem fireTimeouts_run (netdb : List IdentHash) (dest : IdentHash)
    (c : Callback) (t0 : Nat) :
    ∀ (fuel n : Nat) (d : ClientDestination) (req : LeaseSetRequest),
      List.lookup dest d.m_LeaseSetRequests = some req →
      req.request_complete = some c →
      req.request_time = t0 →
      req.excluded.length = n →
      1 ≤ n → n ≤ MAX_NUM_FLOODFILLS_PER_REQUEST →
      req.timer_deadline = some (t0 + LEASESET_REQUEST_TIMEOUT * n) →
      8 - n ≤ fuel →
      ∃ tc, tc ≤ t0 + MAX_LEASESET_REQUEST_TIMEOUT ∧
        callbackEvents (fireTimeouts netdb dest fuel d).2 = [(tc, c, none)] ∧
        List.lookup dest (fireTimeouts netdb dest fuel d).1.m_LeaseSetRequests
          = none := by
  intro fuel
  induction fuel with
  | zero =>
      intro n d req hlook hcb ht hn h1 h7 htimer hfuel
      simp only [MAX_NUM_FLOODFILLS_PER_REQUEST] at h7
      omega
  | succ fuel ih =>
      intro n d req hlook hcb ht hn h1 h7 htimer hfuel
      simp only [fireTimeouts, hlook, htimer]
      by_cases hlt : n < MAX_NUM_FLOODFILLS_PER_REQUEST
      · have hcond : t0 + LEASESET_REQUEST_TIMEOUT * n <
            req.request_time + MAX_LEASESET_REQUEST_TIMEOUT ∧
            req.excluded.length < MAX_NUM_FLOODFILLS_PER_REQUEST := by
          rw [ht, hn]
          refine ⟨?_, hlt⟩
          simp only [LEASESET_REQUEST_TIMEOUT, MAX_LEASESET_REQUEST_TIMEOUT,
            MAX_NUM_FLOODFILLS_PER_REQUEST] at *
          omega
        cases hf : GetClosestFloodfill netdb req.excluded with
        | some peer =>
            simp only [ClientDestination.HandleRequestTimoutTimer, hlook]
            rw [if_pos hcond]
            simp only [hf]
            obtain ⟨tc, htc, hcbE, hlkE⟩ :=
              ih (n + 1)
                { d with m_LeaseSetRequests :=
                    (alInsert dest
                      ((sendLeaseSetRequest (t0 + LEASESET_REQUEST_TIMEOUT * n)
                        dest peer req).1)
                      d.m_LeaseSetRequests) }
                ((sendLeaseSetRequest (t0 + LEASESET_REQUEST_TIMEOUT * n)
                  dest peer req).1)
                (lookup_alInsert_self dest _ _)
                hcb ht
                (by simp [sendLeaseSetRequest, hn])
                (by omega)
                (by simp only [MAX_NUM_FLOODFILLS_PER_REQUEST] at *; omega)
                (by
                  simp only [sendLeaseSetRequest, LEASESET_REQUEST_TIMEOUT]
                  congr 1)
                (by omega)
            refine ⟨tc, htc, ?_, ?_⟩
            · rw [callbackEvents_append, callbackEvents_send]
              rw [List.nil_append]
              exact hcbE
            · exact hlkE
        | none =>
            simp only [ClientDestination.HandleRequestTimoutTimer, hlook]
            rw [if_pos hcond]
            simp only [hf, hcb, invoke]
            have hres : List.lookup dest
                (alErase dest d.m_LeaseSetRequests) = none :=
              lookup_alErase_self dest _
            rw [fireTimeouts_no_request netdb dest fuel _ hres]
            refine ⟨t0 + LEASESET_REQUEST_TIMEOUT * n, ?_, ?_, ?_⟩
            · simp only [LEASESET_REQUEST_TIMEOUT, MAX_LEASESET_REQUEST_TIMEOUT,
                MAX_NUM_FLOODFILLS_PER_REQUEST] at *
              omega
            · simp [callbackEvents]
            · simpa using hres
      · have hcond : ¬(t0 + LEASESET_REQUEST_TIMEOUT * n <
            req.request_time + MAX_LEASESET_REQUEST_TIMEOUT ∧
            req.excluded.length < MAX_NUM_FLOODFILLS_PER_REQUEST) := by
          rw [ht, hn]
          intro hc
          exact hlt hc.2
        simp only [ClientDestination.HandleRequestTimoutTimer, hlook]
        rw [if_neg hcond]
        simp only [hcb, invoke]
        have hres : List.lookup dest (alErase dest d.m_LeaseSetRequests) = none :=
          lookup_alErase_self dest _
        rw [fireTimeouts_no_request netdb dest fuel _ hres]
        refine ⟨t0 + LEASESET_REQUEST_TIMEOUT * n, ?_, ?_, ?_⟩
        · simp only [LEASESET_REQUEST_TIMEOUT, MAX_LEASESET_REQUEST_TIMEOUT,
            MAX_NUM_FLOODFILLS_PER_REQUEST] at *
          omega
        · simp [callbackEvents]
        · simpa using hres

/-- C1: for a hash with neither cache entry nor pending request,
`RequestDestination` starts exactly one lookup attempt sequence: it sends
exactly one lookup query and registers exactly one request (start time `t0`,
one tried peer, 5-second timeout armed).  On each timeout: inside both
budgets (elapsed < `MAX_LEASESET_REQUEST_TIMEOUT` = 40 s, tried peers <
`MAX_NUM_FLOODFILLS_PER_REQUEST` = 7) with a next peer available, the tried
peer stays excluded, the query is resent to a fresh peer and the 5-second
timeout re-armed; otherwise the request completes with the absent value and
is removed.  Hence on the run where lookup peers never respond the callback
is invoked exactly once, with the absent value, at a time within 40 seconds
of the request start, and the request is gone afterwards. -/
theorem requestDestination_lifecycle (d : ClientDestination)
    (netdb : List IdentHash) (t0 : Nat) (dest : IdentHash) (c : Callback)
    (fuel : Nat) (p0 : IdentHash)
    (hcache : List.lookup dest d.m_RemoteLeaseSets = none)
    (hpend : List.lookup dest d.m_LeaseSetRequests = none)
    (hnet : GetClosestFloodfill netdb [] = some p0)
    (hfuel : 7 ≤ fuel) :
    (d.RequestDestination netdb t0 dest (some c)).2
        = [Event.lookupSent t0 dest p0] ∧
    List.lookup dest
        (d.RequestDestination netdb t0 dest (some c)).1.m_LeaseSetRequests
      = some { excluded := [p0], request_time := t0,
               timer_deadline := some (t0 + LEASESET_REQUEST_TIMEOUT),
               request_complete := some c } ∧
    (∀ (dS : ClientDestination) (reqS : LeaseSetRequest) (ts : Nat)
        (p : IdentHash),
        List.lookup dest dS.m_LeaseSetRequests = some reqS →
        ((ts < reqS.request_time + MAX_LEASESET_REQUEST_TIMEOUT ∧
            reqS.excluded.length < MAX_NUM_FLOODFILLS_PER_REQUEST) →
          GetClosestFloodfill netdb reqS.excluded = some p →
          (dS.HandleRequestTimoutTimer netdb ts dest).2
              = [Event.lookupSent ts dest p] ∧
          List.lookup dest
              (dS.HandleRequestTimoutTimer netdb ts dest).1.m_LeaseSetRequests
            = some { reqS with
                excluded := p :: reqS.excluded,
                timer_deadline := some (ts + LEASESET_REQUEST_TIMEOUT) }) ∧
        (¬(ts < reqS.request_time + MAX_LEASESET_REQUEST_TIMEOUT ∧
            reqS.excluded.length < MAX_NUM_FLOODFILLS_PER_REQUEST) →
          (dS.HandleRequestTimoutTimer netdb ts dest).2
              = invoke reqS.request_complete ts none ∧
          List.lookup dest
              (dS.HandleRequestTimoutTimer netdb ts dest).1.m_LeaseSetRequests
            = none)) ∧
    (∃ tc, tc ≤ t0 + MAX_LEASESET_REQUEST_TIMEOUT ∧
        callbackEvents ((d.RequestDestination netdb t0 dest (some c)).2 ++
            (fireTimeouts netdb dest fuel
              (d.RequestDestination netdb t0 dest (some c)).1).2)
          = [(tc, c, none)] ∧
        List.lookup dest
            (fireTimeouts netdb dest fuel
              (d.RequestDestination netdb t0 dest (some c)).1).1.m_LeaseSetRequests
          = none) := by
  have hstart : d.RequestDestination netdb t0 dest (some c)
      = ({ d with m_LeaseSetRequests :=
            (alInsert dest
              ({ excluded := [p0], request_time := t0,
                 timer_deadline := some (t0 + LEASESET_REQUEST_TIMEOUT),
                 request_complete := some c })
              d.m_LeaseSetRequests) },
         [Event.lookupSent t0 dest p0]) := by
    simp only [ClientDestination.RequestDestination, hcache,
      ClientDestination.RequestLeaseSet, hpend, hnet, sendLeaseSetRequest]
  refine ⟨?_, ?_, ?_, ?_⟩
  · rw [hstart]
  · rw [hstart]
    exact lookup_alInsert_self dest _ _
  · intro dS reqS ts p hlookS
    constructor
    · intro hcond hp
      simp only [ClientDestination.HandleRequestTimoutTimer, hlookS]
      rw [if_pos hcond]
      simp only [hp, sendLeaseSetRequest]
      exact ⟨by simp, lookup_alInsert_self dest _ _⟩
    · intro hcond
      simp only [ClientDestination.HandleRequestTimoutTimer, hlookS]
      rw [if_neg hcond]
      exact ⟨rfl, lookup_alErase_self dest _⟩
  · rw [hstart]
    obtain ⟨tc, htc, hcbE, hlkE⟩ :=
      fireTimeouts_run netdb dest c t0 fuel 1
        ({ d with m_LeaseSetRequests :=
            (alInsert dest
              ({ excluded := [p0], request_time := t0,
                 timer_deadline := some (t0 + LEASESET_REQUEST_TIMEOUT),
                 request_complete := some c })
              d.m_LeaseSetRequests) })
        ({ excluded := [p0], request_time := t0,
           timer_deadline := some (t0 + LEASESET_REQUEST_TIMEOUT),
           request_complete := some c })
        (lookup_alInsert_self dest _ _)
        rfl rfl rfl (Nat.le_refl 1)
        (by simp [MAX_NUM_FLOODFILLS_PER_REQUEST])
        (by rw [Nat.mul_one])
        (by omega)
    refine ⟨tc, htc, ?_, hlkE⟩
    rw [callbackEvents_append]
    rw [show callbackEvents [Event.lookupSent t0 dest p0] = [] from rfl]
    rw [List.nil_append]
    exact hcbE

/-- Witness for C1 at a concrete input: empty destination `dEmpty`, eight
floodfills, request for hash 42 with callback 9 at time 0, run for 7
timeouts. -/
theorem requestDestination_lifecycle_witness :
    List.lookup 42 dEmpty.m_RemoteLeaseSets = none ∧
    List.lookup 42 dEmpty.m_LeaseSetRequests = none ∧
    GetClosestFloodfill [1, 2, 3, 4, 5, 6, 7, 8] [] = some 1 ∧
    (dEmpty.RequestDestination [1, 2, 3, 4, 5, 6, 7, 8] 0 42 (some 9)).2
        = [Event.lookupSent 0 42 1] ∧
    (∃ tc, tc ≤ 0 + MAX_LEASESET_REQUEST_TIMEOUT ∧
        callbackEvents ((dEmpty.RequestDestination [1, 2, 3, 4, 5, 6, 7, 8]
              0 42 (some 9)).2 ++
            (fireTimeouts [1, 2, 3, 4, 5, 6, 7, 8] 42 7
              (dEmpty.RequestDestination [1, 2, 3, 4, 5, 6, 7, 8]
                0 42 (some 9)).1).2)
          = [(tc, 9, none)] ∧
        List.lookup 42
            (fireTimeouts [1, 2, 3, 4, 5, 6, 7, 8] 42 7
              (dEmpty.RequestDestination [1, 2, 3, 4, 5, 6, 7, 8]
                0 42 (some 9)).1).1.m_LeaseSetRequests
          = none) :=
  ⟨by decide, by decide, by decide,
   (requestDestination_lifecycle dEmpty [1, 2, 3, 4, 5, 6, 7, 8] 0 42 9 7 1
      (by decide) (by decide) (by decide) (by decide)).1,
   (requestDestination_lifecycle dEmpty [1, 2, 3, 4, 5, 6, 7, 8] 0 42 9 7 1
      (by decide) (by decide) (by decide) (by decide)).2.2.2⟩
